import Mathlib

/-!
Shallow embedding of the mcp-registry registry-and-dispatch service
(`src/mcp_registry/mcp_registry_server.py`), covering the Port Allocator,
Health Prober, Registry Store (register / save / load), Tool Directory and
Dispatcher, together with theorems settling the specification's claims.

Python strings are modelled as lists of characters, Python dicts as
association lists with unique keys (insertion order preserved, assignment
replacing in place), Python `datetime` instants as natural-number seconds,
and the external transport collaborator as oracle functions passed in as
parameters (`none` standing for a raised `requests.RequestException`).
-/

/-- Python strings, modelled as lists of characters. -/
abbrev Str : Type := List Char

/-- Embed a Lean string literal as a `Str`. -/
def lit (s : String) : Str := s.data

/-- `Server` dataclass: a registered backend (name, description, url, port). -/
structure Server where
  name : Str
  description : Str
  url : Str
  port : Nat
deriving DecidableEq

/-- `PERMISSION_SERVER_NAME = "PermissionServer"`: the reserved privileged name. -/
def PERMISSION_SERVER_NAME : Str := lit "PermissionServer"

/-- The consent tool restricted to the privileged backend (`"ask_for_permission"`). -/
def consentToolName : Str := lit "ask_for_permission"

/-- Dict lookup (`d[k]` / `k in d`), on an association-list model of a Python dict. -/
def lookupD {α : Type} : List (Str × α) → Str → Option α
  | [], _ => none
  | (k2, v) :: rest, k => if k2 = k then some v else lookupD rest k

/-- Dict assignment `d[k] = v`: replace in place when the key exists, else append
(Python dicts preserve insertion order). -/
def insertD {α : Type} : List (Str × α) → Str → α → List (Str × α)
  | [], k, v => [(k, v)]
  | (k2, v2) :: rest, k, v =>
    if k2 = k then (k, v) :: rest else (k2, v2) :: insertD rest k v

/-- `d.values()` in insertion order. -/
def valuesD {α : Type} (d : List (Str × α)) : List α := d.map Prod.snd

/-- `d.keys()` in insertion order. -/
def keysD {α : Type} (d : List (Str × α)) : List Str := d.map Prod.fst

/-! ## Port Allocator (`_generate_port`) -/

/-- The upward bind-probing loop of `_generate_port`: starting at `port`, return the
first port `≤ endPort` for which an exclusive bind succeeds (`free p = true` models a
successful `sock.bind`), else `none`. -/
def scanPorts (free : Nat → Bool) (endPort : Nat) (port : Nat) : Option Nat :=
  if port ≤ endPort then
    if free port then some port else scanPorts free endPort (port + 1)
  else none
termination_by endPort + 1 - port
decreasing_by omega

/-- `_generate_port(server_url, start_port, end_port)` after the random draw:
`r` models `random.randint(start_port, end_port)` (so `start_port ≤ r ≤ end_port`),
`free` models bindability of each port on the parsed host, and `none` models the
`RuntimeError` raised when the upward scan exhausts the range. -/
def generatePort (free : Nat → Bool) (r : Nat) (endPort : Nat) : Option Nat :=
  scanPorts free endPort r

theorem scanPorts_some (free : Nat → Bool) (endPort : Nat) :
    ∀ r p, scanPorts free endPort r = some p →
      r ≤ p ∧ p ≤ endPort ∧ free p = true ∧ ∀ q, r ≤ q → q < p → free q = false := by
  have key : ∀ n r p, endPort + 1 - r ≤ n → scanPorts free endPort r = some p →
      r ≤ p ∧ p ≤ endPort ∧ free p = true ∧ ∀ q, r ≤ q → q < p → free q = false := by
    intro n
    induction n with
    | zero =>
      intro r p hn hp
      rw [scanPorts] at hp
      have hle : ¬ r ≤ endPort := by omega
      simp [hle] at hp
    | succ n ih =>
      intro r p hn hp
      rw [scanPorts] at hp
      by_cases hle : r ≤ endPort
      · simp only [if_pos hle] at hp
        by_cases hf : free r = true
        · simp only [hf, if_true, Option.some.injEq] at hp
          subst hp
          exact ⟨Nat.le_refl _, hle, hf,
            fun q hq1 hq2 => absurd hq1 (Nat.not_le_of_lt hq2)⟩
        · simp only [hf, if_false] at hp
          have hrec := ih (r + 1) p (by omega) hp
          refine ⟨by omega, hrec.2.1, hrec.2.2.1, ?_⟩
          intro q hq1 hq2
          rcases Nat.eq_or_lt_of_le hq1 with he | hl
          · rw [← he]
            exact Bool.not_eq_true _ ▸ eq_false_of_ne_true hf
          · exact hrec.2.2.2 q hl hq2
      · simp [hle] at hp
  intro r p hp
  exact key (endPort + 1 - r) r p (Nat.le_refl _) hp

theorem scanPorts_none (free : Nat → Bool) (endPort : Nat) :
    ∀ r, scanPorts free endPort r = none ↔
      ∀ q, r ≤ q → q ≤ endPort → free q = false := by
  have key : ∀ n r, endPort + 1 - r ≤ n →
      (scanPorts free endPort r = none ↔
        ∀ q, r ≤ q → q ≤ endPort → free q = false) := by
    intro n
    induction n with
    | zero =>
      intro r hn
      rw [scanPorts]
      have hle : ¬ r ≤ endPort := by omega
      simp only [if_neg hle]
      constructor
      · intro _ q hq1 hq2
        omega
      · intro _
        trivial
    | succ n ih =>
      intro r hn
      rw [scanPorts]
      by_cases hle : r ≤ endPort
      · simp only [if_pos hle]
        by_cases hf : free r = true
        · simp only [hf, if_true]
          constructor
          · intro h
            exact absurd h (by simp)
          · intro h
            have := h r (Nat.le_refl _) hle
            rw [hf] at this
            exact absurd this (by simp)
        · rw [if_neg hf]
          rw [ih (r + 1) (by omega)]
          constructor
          · intro h q hq1 hq2
            rcases Nat.eq_or_lt_of_le hq1 with he | hl
            · rw [← he]
              exact eq_false_of_ne_true hf
            · exact h q hl hq2
          · intro h q hq1 hq2
            exact h q (by omega) hq2
      · simp only [if_neg hle]
        constructor
        · intro _ q hq1 hq2
          omega
        · intro _
          trivial
  intro r
  exact key (endPort + 1 - r) r (Nat.le_refl _)

/-! ## Health Prober (`check_server_health`) -/

/-- TTL of the health cache: `timedelta(seconds=30)`. -/
def healthTTLSeconds : Nat := 30

/-- Timeout of a health probe: `requests.get(..., timeout=5)`. -/
def healthTimeoutSeconds : Nat := 5

/-- Outcome of `check_server_health`: the returned verdict, the health cache
after the call, and how many network probes the call performed. -/
structure HealthResult where
  verdict : Bool
  cache : List (Str × (Nat × Bool))
  probes : Nat
deriving DecidableEq

/-- The verdict of one probe: `probe` models `requests.get` of the health path at a
given timeout, returning the HTTP status code, or `none` for a raised
`requests.RequestException`; only status 200 counts as healthy. -/
def probeVerdict (probe : Nat → Option Nat) : Bool :=
  match probe healthTimeoutSeconds with
  | some status => decide (status = 200)
  | none => false

/-- The probing block of `check_server_health` (the fall-through after the cache
check): one `requests.get` with the 5-second timeout, then an unconditional cache
write of the new verdict with the current time. -/
def probeAndCache (cache : List (Str × (Nat × Bool))) (now : Nat)
    (probe : Nat → Option Nat) (s : Server) : HealthResult :=
  ⟨probeVerdict probe, insertD cache s.name (now, probeVerdict probe), 1⟩

/-- `check_server_health(server)`: if the cache holds a verdict for `server.name`
younger than the TTL, return it without probing; otherwise perform one probe with the
5-second timeout and overwrite the cache entry with the new verdict and the current
time `now` (seconds). Clock instants are natural numbers; `now - lastCheck` uses
truncated subtraction, which sends a future `lastCheck` to age 0 just as Python's
negative `timedelta` also compares below the TTL. -/
def checkServerHealth (cache : List (Str × (Nat × Bool))) (now : Nat)
    (probe : Nat → Option Nat) (s : Server) : HealthResult :=
  match lookupD cache s.name with
  | some (lastCheck, isHealthy) =>
    if now - lastCheck < healthTTLSeconds then ⟨isHealthy, cache, 0⟩
    else probeAndCache cache now probe s
  | none => probeAndCache cache now probe s

/-! ## Registry Store (`register_server`, `save_servers`, `load_servers`) -/

/-- The JSON body of a `POST /register_server` request: each field is `some`
exactly when the corresponding key is present in the request dict. -/
structure RegRequest where
  server_url : Option Str
  server_name : Option Str
  server_description : Option Str
deriving DecidableEq

/-- Registry state: the in-memory `servers` dict and the contents of the
`servers.json` snapshot file. -/
structure RegState where
  servers : List (Str × Server)
  snapshotFile : List (Str × Server)
deriving DecidableEq

/-- HTTP outcome of `register_server`. -/
inductive RegResponse
  /-- 400, "Missing required fields". -/
  | badRequest
  /-- 403, "Reserved server name". -/
  | reservedName
  /-- 201 with the newly stored record. -/
  | created (s : Server)
deriving DecidableEq

/-- `save_servers()`: serialize the `servers` dict, keyed by name with each record's
four fields, to the snapshot file; the file contents are modelled as that table. -/
def saveServers (servers : List (Str × Server)) : List (Str × Server) := servers

/-- `register_server()`: reject a request missing any of `server_url`, `server_name`,
`server_description` with 400; then reject `server_name == PERMISSION_SERVER_NAME`
with 403; otherwise build the record with the port allocated by `_generate_port`
(`allocatedPort` models that call's successful result, which the 400/403 paths never
reach), assign it into the `servers` dict, and persist the snapshot. -/
def registerServer (st : RegState) (req : RegRequest) (allocatedPort : Nat) :
    RegResponse × RegState :=
  match req.server_url, req.server_name, req.server_description with
  | some url, some name, some desc =>
    if name = PERMISSION_SERVER_NAME then
      (.reservedName, st)
    else
      let newServer : Server := ⟨name, desc, url, allocatedPort⟩
      let newTable := insertD st.servers name newServer
      (.created newServer, ⟨newTable, saveServers newTable⟩)
  | _, _, _ => (.badRequest, st)

/-- `load_servers()`: iterate the snapshot dict's values in order, rebuild each
`Server`, keep it (keyed by its own `name` field) only when `check_server_health`
passes; `healthyV` abstracts that verdict per rebuilt server. -/
def loadServers (fileData : List (Str × Server)) (healthyV : Server → Bool) :
    List (Str × Server) :=
  fileData.foldl
    (fun acc kv => if healthyV kv.2 then insertD acc kv.2.name kv.2 else acc) []

/-! ## Dispatcher (`call_tool`) and Tool Directory (`get_tools`) -/

/-- The separator character of qualified tool names. -/
def dotChar : Char := Char.ofNat 46

/-- The single-quote character used in the error message f-strings. -/
def quoteChar : Char := Char.ofNat 39

/-- `tool_name.split(".", 1)` guarded by `"." in tool_name`: `some (pre, post)` when
the string contains a separator, where `pre` is everything before the FIRST separator
and `post` the entire remainder; `none` when it contains no separator. -/
def splitOnce : Str → Option (Str × Str)
  | [] => none
  | c :: rest =>
    if c = dotChar then some ([], rest)
    else
      match splitOnce rest with
      | some (pre, post) => some (c :: pre, post)
      | none => none

/-- Name resolution of `call_tool`: the optional qualifying server name and the
resolved tool name. -/
def resolveName (name : Str) : Option Str × Str :=
  match splitOnce name with
  | some (s, t) => (some s, t)
  | none => (none, name)

/-- HTTP-level failure outcomes of `call_tool` (and the 404 of `get_tools`). -/
inductive CallError
  /-- 400, "Tool name not provided". -/
  | badRequest
  /-- 403, "Permission denied: unauthorized server". -/
  | permissionDenied
  /-- 404, the named server is not registered. -/
  | serverNotFound (sname : Str)
  /-- 404 after exhausting every candidate, carrying the error message. -/
  | toolNotFound (msg : Str)
  /-- The uncaught `KeyError` when the privileged entry is missing from `servers`
  (Flask surfaces it as a 500). -/
  | internalError
deriving DecidableEq

/-- `f"Tool '{tool_name}' not found"`. -/
def notFoundBase (tname : Str) : Str :=
  lit "Tool " ++ [quoteChar] ++ tname ++ [quoteChar] ++ lit " not found"

/-- `f" on server '{server_name}'"`. -/
def serverClause (sname : Str) : Str :=
  lit " on server " ++ [quoteChar] ++ sname ++ [quoteChar]

/-- The terminal 404 message of `call_tool`: the server clause is appended under
`if server_name:`, i.e. only when a server name was set AND is non-empty (Python
truthiness of strings). -/
def notFoundMsg (tname : Str) (snameOpt : Option Str) : Str :=
  notFoundBase tname ++
    (match snameOpt with
     | some sname => if sname = [] then [] else serverClause sname
     | none => [])

/-- Candidate selection of `call_tool`, after name resolution: the `target_servers`
computation, or the error that preempts it. `healthyV s` abstracts the verdict of
`check_server_health(s)` at this request. Mirrors the source order: for a qualified
name, the consent-tool restriction is checked BEFORE the registration lookup; for an
unqualified consent request, `servers[PERMISSION_SERVER_NAME]` is read unguarded. -/
def selectCandidates (servers : List (Str × Server)) (healthyV : Server → Bool)
    (snameOpt : Option Str) (tname : Str) : Except CallError (List Server) :=
  match snameOpt with
  | some sname =>
    if tname = consentToolName ∧ sname ≠ PERMISSION_SERVER_NAME then
      .error .permissionDenied
    else
      match lookupD servers sname with
      | none => .error (.serverNotFound sname)
      | some srv => .ok [srv]
  | none =>
    if tname = consentToolName then
      match lookupD servers PERMISSION_SERVER_NAME with
      | some p => .ok [p]
      | none => .error .internalError
    else
      .ok ((valuesD servers).filter healthyV)

/-- The invocation loop of `call_tool` over `target_servers`. For each candidate:
`catalog s` models `client.list_tools()` (`none` = transport failure → skip);
a candidate whose catalog lacks the tool is skipped; otherwise `call s` models
`client.call_tool(tool_name, data)` with the request's remaining arguments fixed
(`none` = transport failure → skip), and a completed call returns immediately.
Also returns the list of candidates against which a transport client was opened. -/
def tryServers {ρ : Type} (catalog : Server → Option (List Str))
    (call : Server → Option ρ) (tname : Str) :
    List Server → Option ρ × List Server
  | [] => (none, [])
  | s :: rest =>
    match catalog s with
    | none =>
      let res := tryServers catalog call tname rest
      (res.1, s :: res.2)
    | some tools =>
      if tname ∈ tools then
        match call s with
        | some r => (some r, [s])
        | none =>
          let res := tryServers catalog call tname rest
          (res.1, s :: res.2)
      else
        let res := tryServers catalog call tname rest
        (res.1, s :: res.2)

/-- The body of `call_tool` after name resolution: select candidates (enforcing the
consent boundary), run the invocation loop, and on exhaustion answer 404 with the
message built by `notFoundMsg`. -/
def callToolResolved {ρ : Type} (servers : List (Str × Server))
    (healthyV : Server → Bool) (catalog : Server → Option (List Str))
    (call : Server → Option ρ) (snameOpt : Option Str) (tname : Str) :
    Except CallError ρ × List Server :=
  match selectCandidates servers healthyV snameOpt tname with
  | .error e => (.error e, [])
  | .ok targets =>
    match tryServers catalog call tname targets with
    | (some res, contacted) => (.ok res, contacted)
    | (none, contacted) =>
      (.error (.toolNotFound (notFoundMsg tname snameOpt)), contacted)

/-- `call_tool()`: 400 when the body carries no `name`; otherwise resolve the name
and dispatch. Returns the HTTP-level outcome together with the candidates contacted
over the network. -/
def callTool {ρ : Type} (servers : List (Str × Server)) (healthyV : Server → Bool)
    (catalog : Server → Option (List Str)) (call : Server → Option ρ)
    (nameOpt : Option Str) : Except CallError ρ × List Server :=
  match nameOpt with
  | none => (.error .badRequest, [])
  | some name =>
    callToolResolved servers healthyV catalog call
      (resolveName name).1 (resolveName name).2

/-- The aggregation loop of `get_tools` in `mcp_registry_server.py`: for each target
server, first `check_server_health` (its verdict abstracted as `healthyV`; an
unhealthy server is skipped BEFORE any transport call), then fetch its tools
(`listT s = none` models a transport failure: logged, cache marked unhealthy, and
skipped), qualifying each tool name as `f"{server.name}.{tool.name}"`. Returns the
aggregated qualified names and the servers against which a transport client was
opened. -/
def getToolsLoop (healthyV : Server → Bool) (listT : Server → Option (List Str)) :
    List Server → List Str × List Server
  | [] => ([], [])
  | s :: rest =>
    if healthyV s then
      match listT s with
      | some tools =>
        let res := getToolsLoop healthyV listT rest
        (tools.map (fun t => s.name ++ [dotChar] ++ t) ++ res.1, s :: res.2)
      | none =>
        let res := getToolsLoop healthyV listT rest
        (res.1, s :: res.2)
    else
      getToolsLoop healthyV listT rest

/-- `get_tools()`: with a `server_name` query parameter, target that single server
(404 via the caught `KeyError` when unknown); with none, target every value of the
`servers` dict. -/
def getTools (servers : List (Str × Server)) (healthyV : Server → Bool)
    (listT : Server → Option (List Str)) (scope : Option Str) :
    Except CallError (List Str) × List Server :=
  match scope with
  | some sname =>
    match lookupD servers sname with
    | none => (.error (.serverNotFound sname), [])
    | some srv =>
      let res := getToolsLoop healthyV listT [srv]
      (.ok res.1, res.2)
  | none =>
    let res := getToolsLoop healthyV listT (valuesD servers)
    (.ok res.1, res.2)

/-! ## Dictionary lemmas -/

theorem lookupD_insertD_self {α : Type} (d : List (Str × α)) (k : Str) (v : α) :
    lookupD (insertD d k v) k = some v := by
  induction d with
  | nil => simp [insertD, lookupD]
  | cons kv rest ih =>
    obtain ⟨k2, v2⟩ := kv
    by_cases h : k2 = k
    · simp [insertD, h, lookupD]
    · simp [insertD, h, lookupD, ih]

theorem mem_keysD_of_mem {α : Type} {d : List (Str × α)} {k : Str} {v : α}
    (h : (k, v) ∈ d) : k ∈ keysD d :=
  List.mem_map_of_mem Prod.fst h

theorem mem_keysD_insertD {α : Type} (d : List (Str × α)) (k : Str) (v : α) (x : Str) :
    x ∈ keysD (insertD d k v) → x ∈ keysD d ∨ x = k := by
  induction d with
  | nil =>
    intro hx
    simp only [insertD, keysD, List.map_cons, List.map_nil, List.mem_singleton] at hx
    exact Or.inr hx
  | cons kv rest ih =>
    obtain ⟨k2, v2⟩ := kv
    by_cases h : k2 = k
    · subst h
      rw [insertD, if_pos rfl]
      intro hx
      simp only [keysD, List.map_cons, List.mem_cons] at hx ⊢
      rcases hx with hx | hx
      · exact Or.inr hx
      · exact Or.inl (Or.inr hx)
    · rw [insertD, if_neg h]
      intro hx
      simp only [keysD, List.map_cons, List.mem_cons] at hx ⊢
      rcases hx with hx | hx
      · exact Or.inl (Or.inl hx)
      · rcases ih hx with h2 | h2
        · exact Or.inl (Or.inr h2)
        · exact Or.inr h2

theorem nodup_keysD_insertD {α : Type} (d : List (Str × α)) (k : Str) (v : α)
    (hnd : (keysD d).Nodup) : (keysD (insertD d k v)).Nodup := by
  induction d with
  | nil =>
    rw [insertD]
    exact List.nodup_singleton k
  | cons kv rest ih =>
    obtain ⟨k2, v2⟩ := kv
    simp only [keysD, List.map_cons, List.nodup_cons] at hnd
    by_cases h : k2 = k
    · subst h
      rw [insertD, if_pos rfl]
      simp only [keysD, List.map_cons, List.nodup_cons]
      exact hnd
    · rw [insertD, if_neg h]
      simp only [keysD, List.map_cons, List.nodup_cons]
      refine ⟨fun hx => ?_, ih hnd.2⟩
      rcases mem_keysD_insertD rest k v k2 hx with h2 | h2
      · exact hnd.1 h2
      · exact h h2

theorem mem_insertD_key {α : Type} (d : List (Str × α)) (k : Str) (v rec : α)
    (hnd : (keysD d).Nodup) : (k, rec) ∈ insertD d k v → rec = v := by
  induction d with
  | nil =>
    intro h
    rw [insertD] at h
    rcases List.mem_singleton.mp h with he
    exact congrArg Prod.snd he
  | cons kv rest ih =>
    obtain ⟨k2, v2⟩ := kv
    simp only [keysD, List.map_cons, List.nodup_cons] at hnd
    by_cases h : k2 = k
    · subst h
      intro hm
      rw [insertD, if_pos rfl] at hm
      rcases List.mem_cons.mp hm with he | hm2
      · exact congrArg Prod.snd he
      · exact absurd (mem_keysD_of_mem hm2) hnd.1
    · intro hm
      rw [insertD, if_neg h] at hm
      rcases List.mem_cons.mp hm with he | hm2
      · exact absurd (congrArg Prod.fst he).symm h
      · exact ih hnd.2 hm2

theorem insertD_of_not_mem {α : Type} (d : List (Str × α)) (k : Str) (v : α)
    (h : k ∉ keysD d) : insertD d k v = d ++ [(k, v)] := by
  induction d with
  | nil => rw [insertD, List.nil_append]
  | cons kv rest ih =>
    obtain ⟨k2, v2⟩ := kv
    simp only [keysD, List.map_cons, List.mem_cons] at h
    push_neg at h
    rw [insertD, if_neg (Ne.symm h.1), List.cons_append]
    rw [ih h.2]

/-! ## Claim theorems -/

/-- C8: given a range with a random starting point `r` inside it
(`start_port ≤ r ≤ end_port`, the contract of `random.randint`), `_generate_port`
probes upward from `r` only and returns the first bindable port, so every returned
port lies in the range and is at least `r`, with every port from `r` up to it
unbindable; and it fails (the `RuntimeError`, modelled as `none`) exactly when no
port from `r` up to `end_port` is bindable. -/
theorem generate_port_range_and_exhaustion (free : Nat → Bool)
    (startPort r endPort : Nat) (h1 : startPort ≤ r) (h2 : r ≤ endPort) :
    (∀ p, generatePort free r endPort = some p →
      startPort ≤ p ∧ p ≤ endPort ∧ r ≤ p ∧ free p = true ∧
        ∀ q, r ≤ q → q < p → free q = false) ∧
    (generatePort free r endPort = none ↔
      ∀ q, r ≤ q → q ≤ endPort → free q = false) := by
  constructor
  · intro p hp
    have h := scanPorts_some free endPort r p hp
    exact ⟨Nat.le_trans h1 h.1, h.2.1, h.1, h.2.2.1, h.2.2.2⟩
  · exact scanPorts_none free endPort r

/-- Witness for C8: range 5..10, random start 5, only port 7 bindable. -/
theorem generate_port_range_and_exhaustion_witness :
    (∀ p, generatePort (fun q => decide (q = 7)) 5 10 = some p →
      5 ≤ p ∧ p ≤ 10 ∧ 5 ≤ p ∧ (decide (p = 7)) = true ∧
        ∀ q, 5 ≤ q → q < p → (decide (q = 7)) = false) ∧
    (generatePort (fun q => decide (q = 7)) 5 10 = none ↔
      ∀ q, 5 ≤ q → q ≤ 10 → (decide (q = 7)) = false) :=
  generate_port_range_and_exhaustion (fun q => decide (q = 7)) 5 5 10
    (by decide) (by decide)

/-- C3: with a cached record younger than 30 seconds, `check_server_health` returns
the cached verdict, performs no probe, and leaves the cache unchanged; with no cached
record or one at least 30 seconds old, it performs exactly one probe at the 5-second
timeout and writes the new verdict with the fresh timestamp `now` into the cache
before returning it, where the verdict is healthy exactly for a probe that returned
status 200 (any transport failure or other status is unhealthy). -/
theorem check_server_health_ttl_cache (cache : List (Str × (Nat × Bool))) (now : Nat)
    (probe : Nat → Option Nat) (s : Server) :
    (∀ lastCheck v, lookupD cache s.name = some (lastCheck, v) →
      now - lastCheck < healthTTLSeconds →
      checkServerHealth cache now probe s = ⟨v, cache, 0⟩) ∧
    ((lookupD cache s.name = none ∨
        ∃ lastCheck v, lookupD cache s.name = some (lastCheck, v) ∧
          healthTTLSeconds ≤ now - lastCheck) →
      checkServerHealth cache now probe s =
        ⟨probeVerdict probe, insertD cache s.name (now, probeVerdict probe), 1⟩) ∧
    healthTTLSeconds = 30 ∧ healthTimeoutSeconds = 5 ∧
    (probeVerdict probe = true ↔ probe healthTimeoutSeconds = some 200) := by
  refine ⟨?_, ?_, rfl, rfl, ?_⟩
  · intro lastCheck v hl hfresh
    have he : checkServerHealth cache now probe s =
        (if now - lastCheck < healthTTLSeconds then (⟨v, cache, 0⟩ : HealthResult)
         else probeAndCache cache now probe s) := by
      rw [checkServerHealth, hl]
    rw [he, if_pos hfresh]
  · intro hstale
    rcases hstale with hnone | ⟨lastCheck, v, hl, hold⟩
    · rw [checkServerHealth, hnone]
      rfl
    · have he : checkServerHealth cache now probe s =
          (if now - lastCheck < healthTTLSeconds then (⟨v, cache, 0⟩ : HealthResult)
           else probeAndCache cache now probe s) := by
        rw [checkServerHealth, hl]
      rw [he, if_neg (Nat.not_lt.mpr hold)]
      rfl
  · rw [probeVerdict]
    cases hp : probe healthTimeoutSeconds with
    | none => simp
    | some status => simp

/-- Witness for C3: a fresh cached verdict is returned without probing (record aged 10
seconds), and a stale record (aged 100 seconds) triggers one probe, here failing. -/
theorem check_server_health_ttl_cache_witness :
    checkServerHealth [(lit "A", (100, true))] 110 (fun _ => none)
        ⟨lit "A", lit "d", lit "h", 1⟩ = ⟨true, [(lit "A", (100, true))], 0⟩ ∧
    checkServerHealth [(lit "A", (100, true))] 200 (fun _ => none)
        ⟨lit "A", lit "d", lit "h", 1⟩ =
      ⟨false, [(lit "A", (200, false))], 1⟩ :=
  ⟨(check_server_health_ttl_cache [(lit "A", (100, true))] 110 (fun _ => none)
      ⟨lit "A", lit "d", lit "h", 1⟩).1 100 true (by decide) (by decide),
   (check_server_health_ttl_cache [(lit "A", (100, true))] 200 (fun _ => none)
      ⟨lit "A", lit "d", lit "h", 1⟩).2.1 (Or.inr ⟨100, true, by decide, by decide⟩)⟩

/-- Counterexample for C2: a registration request whose `server_name` IS the reserved
privileged name but which omits `server_url` fails the required-fields check first and
is answered 400 (`badRequest`), not the 403 (`reservedName`) the claim demands for
every request naming the reserved name. -/
theorem register_reserved_counterexample :
    (registerServer ⟨[], []⟩
        ⟨none, some PERMISSION_SERVER_NAME, some (lit "d")⟩ 5000).1 =
      RegResponse.badRequest ∧
    RegResponse.badRequest ≠ RegResponse.reservedName := by
  constructor
  · rfl
  · decide

/-- C2 as amended: a registration request that contains all three required fields and
whose `server_name` equals the reserved privileged name fails with the
PermissionDenied-class 403, and a request missing any required field fails with the
BadRequest-class 400 (even when its `server_name` is the reserved name); in both
cases the in-memory table and the snapshot file are left unchanged. -/
theorem register_reserved_and_missing_fields (st : RegState) (req : RegRequest)
    (p : Nat) :
    (req.server_name = some PERMISSION_SERVER_NAME →
      req.server_url.isSome = true → req.server_description.isSome = true →
      registerServer st req p = (.reservedName, st)) ∧
    ((req.server_url = none ∨ req.server_name = none ∨
        req.server_description = none) →
      registerServer st req p = (.badRequest, st)) := by
  obtain ⟨u, n, d⟩ := req
  constructor
  · intro hn hu hd
    simp only at hn
    subst hn
    cases u with
    | none => simp at hu
    | some url =>
      cases d with
      | none => simp at hd
      | some desc =>
        rfl
  · intro h
    rcases h with h | h | h <;> simp only at h <;> subst h
    · cases n <;> cases d <;> rfl
    · cases u <;> cases d <;> rfl
    · cases u <;> cases n <;> rfl

/-- Witness for C2 (amended): a complete request for the reserved name is answered
403 and a request missing its url is answered 400, both leaving the empty state
unchanged. -/
theorem register_reserved_and_missing_fields_witness :
    registerServer ⟨[], []⟩
        ⟨some (lit "http"), some PERMISSION_SERVER_NAME, some (lit "d")⟩ 5000 =
      (.reservedName, ⟨[], []⟩) ∧
    registerServer ⟨[], []⟩ ⟨none, some (lit "n"), some (lit "d")⟩ 5000 =
      (.badRequest, ⟨[], []⟩) :=
  ⟨(register_reserved_and_missing_fields ⟨[], []⟩
      ⟨some (lit "http"), some PERMISSION_SERVER_NAME, some (lit "d")⟩ 5000).1
      rfl rfl rfl,
   (register_reserved_and_missing_fields ⟨[], []⟩
      ⟨none, some (lit "n"), some (lit "d")⟩ 5000).2 (Or.inl rfl)⟩

/-! ## Name splitting (claim C10) -/

theorem splitOnce_eq_some (name : Str) :
    ∀ pre post, splitOnce name = some (pre, post) →
      name = pre ++ dotChar :: post ∧ dotChar ∉ pre := by
  induction name with
  | nil =>
    intro pre post h
    rw [splitOnce] at h
    exact Option.noConfusion h
  | cons c rest ih =>
    intro pre post h
    rw [splitOnce] at h
    by_cases hc : c = dotChar
    · rw [if_pos hc] at h
      obtain ⟨rfl, rfl⟩ := Prod.mk.injEq .. ▸ Option.some.injEq .. ▸ h
      subst hc
      exact ⟨rfl, List.not_mem_nil _⟩
    · rw [if_neg hc] at h
      cases hs : splitOnce rest with
      | none => rw [hs] at h; exact Option.noConfusion h
      | some pp =>
        obtain ⟨pre2, post2⟩ := pp
        rw [hs] at h
        have h2 := Option.some.injEq .. ▸ h
        obtain ⟨rfl, rfl⟩ : c :: pre2 = pre ∧ post2 = post := by
          constructor
          · exact congrArg Prod.fst h2
          · exact congrArg Prod.snd h2
        obtain ⟨he, hnm⟩ := ih pre2 post2 hs
        constructor
        · rw [List.cons_append, ← he]
        · intro hmem
          rcases List.mem_cons.mp hmem with hd | hd
          · exact hc hd.symm
          · exact hnm hd

theorem splitOnce_isSome_of_mem (name : Str) :
    dotChar ∈ name → ∃ pre post, splitOnce name = some (pre, post) := by
  induction name with
  | nil =>
    intro h
    exact absurd h (List.not_mem_nil _)
  | cons c rest ih =>
    intro h
    rw [splitOnce]
    by_cases hc : c = dotChar
    · rw [if_pos hc]
      exact ⟨[], rest, rfl⟩
    · rw [if_neg hc]
      have hm : dotChar ∈ rest := by
        rcases List.mem_cons.mp h with hd | hd
        · exact absurd hd.symm hc
        · exact hd
      obtain ⟨pre, post, hs⟩ := ih hm
      rw [hs]
      exact ⟨c :: pre, post, rfl⟩

/-- C10: the Dispatcher splits a requested name only at the FIRST separator
(`split(".", 1)`): whenever the split succeeds, the server-name part contains no
separator and the original name is that part, one separator, then the tool-name part
(which may itself contain further separators); a name containing a separator always
splits; and concretely `"A.B.tool"` resolves to server `"A"` and tool `"B.tool"`.
The separator is the `"."` character. -/
theorem split_at_first_separator (name : Str) :
    (∀ pre post, splitOnce name = some (pre, post) →
      name = pre ++ dotChar :: post ∧ dotChar ∉ pre) ∧
    (dotChar ∈ name → ∃ pre post, splitOnce name = some (pre, post)) ∧
    [dotChar] = lit "." ∧
    resolveName (lit "A.B.tool") = (some (lit "A"), lit "B.tool") := by
  refine ⟨splitOnce_eq_some name, splitOnce_isSome_of_mem name, rfl, ?_⟩
  decide

/-- Witness for C10 at the name `"A.B.tool"`. -/
theorem split_at_first_separator_witness :
    lit "A.B.tool" = lit "A" ++ dotChar :: lit "B.tool" ∧ dotChar ∉ lit "A" :=
  (split_at_first_separator (lit "A.B.tool")).1 (lit "A") (lit "B.tool") (by decide)

/-- C7: for two successful registrations under the same (non-reserved) name, the
second fully replaces the first: afterwards the table entry for that name is exactly
the record built from the second request's url and description with the port
allocated during the second registration (`p2`, the second `_generate_port` result,
regardless of the first's `p1`); the snapshot written afterwards is the serialized
new table and so carries the same replaced record; and under the dict invariant of
unique keys, no entry under that name with any other attributes survives in the
table or in the snapshot. -/
theorem registerServer_success (st : RegState) (url n desc : Str) (p : Nat)
    (hperm : n ≠ PERMISSION_SERVER_NAME) :
    registerServer st ⟨some url, some n, some desc⟩ p =
      (.created ⟨n, desc, url, p⟩,
       ⟨insertD st.servers n ⟨n, desc, url, p⟩,
        saveServers (insertD st.servers n ⟨n, desc, url, p⟩)⟩) := by
  show (if n = PERMISSION_SERVER_NAME
        then ((RegResponse.reservedName, st) : RegResponse × RegState)
        else (.created ⟨n, desc, url, p⟩,
              ⟨insertD st.servers n ⟨n, desc, url, p⟩,
               saveServers (insertD st.servers n ⟨n, desc, url, p⟩)⟩)) = _
  rw [if_neg hperm]

theorem reregistration_replaces (st : RegState) (n url1 desc1 url2 desc2 : Str)
    (p1 p2 : Nat) (st1 st2 : RegState) (resp1 resp2 : RegResponse)
    (hperm : n ≠ PERMISSION_SERVER_NAME)
    (hnd : (keysD st.servers).Nodup)
    (h1 : registerServer st ⟨some url1, some n, some desc1⟩ p1 = (resp1, st1))
    (h2 : registerServer st1 ⟨some url2, some n, some desc2⟩ p2 = (resp2, st2)) :
    resp1 = .created ⟨n, desc1, url1, p1⟩ ∧
    resp2 = .created ⟨n, desc2, url2, p2⟩ ∧
    lookupD st2.servers n = some ⟨n, desc2, url2, p2⟩ ∧
    st2.snapshotFile = st2.servers ∧
    (∀ rec, (n, rec) ∈ st2.servers → rec = ⟨n, desc2, url2, p2⟩) ∧
    (∀ rec, (n, rec) ∈ st2.snapshotFile → rec = ⟨n, desc2, url2, p2⟩) := by
  have e1 := (registerServer_success st url1 n desc1 p1 hperm).symm.trans h1
  injection e1 with hr1 hs1
  have e2 := (registerServer_success st1 url2 n desc2 p2 hperm).symm.trans h2
  injection e2 with hr2 hs2
  have hst1 : st1.servers = insertD st.servers n ⟨n, desc1, url1, p1⟩ := by
    rw [← hs1]
  have hnd1 : (keysD st1.servers).Nodup := by
    rw [hst1]
    exact nodup_keysD_insertD st.servers n _ hnd
  have hst2s : st2.servers = insertD st1.servers n ⟨n, desc2, url2, p2⟩ := by
    rw [← hs2]
  have hst2f : st2.snapshotFile = insertD st1.servers n ⟨n, desc2, url2, p2⟩ := by
    rw [← hs2]
    rfl
  refine ⟨hr1.symm, hr2.symm, ?_, ?_, ?_, ?_⟩
  · rw [hst2s]
    exact lookupD_insertD_self st1.servers n _
  · rw [hst2s, hst2f]
  · intro rec hm
    rw [hst2s] at hm
    exact mem_insertD_key st1.servers n _ rec hnd1 hm
  · intro rec hm
    rw [hst2f] at hm
    exact mem_insertD_key st1.servers n _ rec hnd1 hm

/-- Witness for C7: registering `"A"` twice on the empty registry; the second
registration's url, description and port replace the first's everywhere. -/
theorem reregistration_replaces_witness :
    RegResponse.created ⟨lit "A", lit "d1", lit "u1", 5001⟩ =
      RegResponse.created ⟨lit "A", lit "d1", lit "u1", 5001⟩ ∧
    RegResponse.created ⟨lit "A", lit "d2", lit "u2", 5002⟩ =
      RegResponse.created ⟨lit "A", lit "d2", lit "u2", 5002⟩ ∧
    lookupD ([(lit "A", ⟨lit "A", lit "d2", lit "u2", 5002⟩)] :
        List (Str × Server)) (lit "A") = some ⟨lit "A", lit "d2", lit "u2", 5002⟩ ∧
    ([(lit "A", (⟨lit "A", lit "d2", lit "u2", 5002⟩ : Server))] :
        List (Str × Server)) = [(lit "A", ⟨lit "A", lit "d2", lit "u2", 5002⟩)] ∧
    (∀ rec, (lit "A", rec) ∈ ([(lit "A", ⟨lit "A", lit "d2", lit "u2", 5002⟩)] :
        List (Str × Server)) → rec = ⟨lit "A", lit "d2", lit "u2", 5002⟩) ∧
    (∀ rec, (lit "A", rec) ∈ ([(lit "A", ⟨lit "A", lit "d2", lit "u2", 5002⟩)] :
        List (Str × Server)) → rec = ⟨lit "A", lit "d2", lit "u2", 5002⟩) := by
  have h := reregistration_replaces ⟨[], []⟩ (lit "A") (lit "u1") (lit "d1")
    (lit "u2") (lit "d2") 5001 5002
    ⟨[(lit "A", ⟨lit "A", lit "d1", lit "u1", 5001⟩)],
     [(lit "A", ⟨lit "A", lit "d1", lit "u1", 5001⟩)]⟩
    ⟨[(lit "A", ⟨lit "A", lit "d2", lit "u2", 5002⟩)],
     [(lit "A", ⟨lit "A", lit "d2", lit "u2", 5002⟩)]⟩
    (.created ⟨lit "A", lit "d1", lit "u1", 5001⟩)
    (.created ⟨lit "A", lit "d2", lit "u2", 5002⟩)
    (by decide) (by decide) (by decide) (by decide)
  exact h

theorem keysD_append {α : Type} (a b : List (Str × α)) :
    keysD (a ++ b) = keysD a ++ keysD b :=
  List.map_append Prod.fst a b

theorem loadServers_all_healthy_aux (healthyV : Server → Bool) :
    ∀ (t acc : List (Str × Server)),
      (∀ kv ∈ t, kv.1 = kv.2.name) →
      (∀ kv ∈ t, healthyV kv.2 = true) →
      (keysD t).Nodup →
      (∀ k, k ∈ keysD t → k ∉ keysD acc) →
      List.foldl
        (fun acc kv => if healthyV kv.2 then insertD acc kv.2.name kv.2 else acc)
        acc t = acc ++ t := by
  intro t
  induction t with
  | nil =>
    intro acc _ _ _ _
    rw [List.foldl_nil, List.append_nil]
  | cons kv rest ih =>
    intro acc hkeys hh hnd hdisj
    obtain ⟨k, v⟩ := kv
    have hk : k = v.name := hkeys (k, v) (List.mem_cons_self _ _)
    have hhv : healthyV v = true := hh (k, v) (List.mem_cons_self _ _)
    have hknotin : k ∉ keysD acc :=
      hdisj k (List.mem_cons_self _ _)
    simp only [keysD, List.map_cons, List.nodup_cons] at hnd
    rw [List.foldl_cons]
    rw [if_pos hhv, ← hk, insertD_of_not_mem acc k v hknotin]
    rw [ih (acc ++ [(k, v)])
      (fun kv2 hm => hkeys kv2 (List.mem_cons_of_mem _ hm))
      (fun kv2 hm => hh kv2 (List.mem_cons_of_mem _ hm))
      hnd.2 ?_]
    · rw [List.append_assoc]
      rfl
    · intro k2 hk2 hk2acc
      rw [keysD_append] at hk2acc
      rcases List.mem_append.mp hk2acc with hin | hin
      · exact hdisj k2 (List.mem_cons_of_mem _ hk2) hin
      · simp only [keysD, List.map_cons, List.map_nil, List.mem_singleton] at hin
        subst hin
        exact hnd.1 hk2

/-- C9: saving any Backend table to the snapshot and loading the snapshot back,
under the assumption that every saved backend passes its health check, reproduces
the table exactly — the same names, each mapped to the same url, port and
description. The hypotheses are the dict invariants of the live table: each entry
is keyed by its record's `name` field and keys are unique. -/
theorem snapshot_round_trip (t : List (Str × Server)) (healthyV : Server → Bool)
    (hkeys : ∀ kv ∈ t, kv.1 = kv.2.name)
    (hnd : (keysD t).Nodup)
    (hh : ∀ kv ∈ t, healthyV kv.2 = true) :
    loadServers (saveServers t) healthyV = t := by
  rw [saveServers, loadServers]
  rw [loadServers_all_healthy_aux healthyV t [] hkeys hh hnd
    (fun k _ hk => (List.not_mem_nil k) hk)]
  rfl

/-- Witness for C9: a two-server table survives the save/load round trip. -/
theorem snapshot_round_trip_witness :
    loadServers
        (saveServers
          [(lit "A", ⟨lit "A", lit "da", lit "ua", 5001⟩),
           (lit "B", ⟨lit "B", lit "db", lit "ub", 5002⟩)])
        (fun _ => true) =
      [(lit "A", ⟨lit "A", lit "da", lit "ua", 5001⟩),
       (lit "B", ⟨lit "B", lit "db", lit "ub", 5002⟩)] :=
  snapshot_round_trip
    [(lit "A", ⟨lit "A", lit "da", lit "ua", 5001⟩),
     (lit "B", ⟨lit "B", lit "db", lit "ub", 5002⟩)]
    (fun _ => true) (by decide) (by decide) (fun kv _ => rfl)

theorem selectCandidates_qualified_consent (servers : List (Str × Server))
    (healthyV : Server → Bool) (sname : Str) (hdiff : sname ≠ PERMISSION_SERVER_NAME) :
    selectCandidates servers healthyV (some sname) consentToolName =
      .error .permissionDenied := by
  show (if consentToolName = consentToolName ∧ sname ≠ PERMISSION_SERVER_NAME
        then (Except.error CallError.permissionDenied :
          Except CallError (List Server))
        else match lookupD servers sname with
          | none => .error (.serverNotFound sname)
          | some srv => .ok [srv]) = .error .permissionDenied
  rw [if_pos ⟨rfl, hdiff⟩]

theorem selectCandidates_unqualified_consent_found (servers : List (Str × Server))
    (healthyV : Server → Bool) (p : Server)
    (hp : lookupD servers PERMISSION_SERVER_NAME = some p) :
    selectCandidates servers healthyV none consentToolName = .ok [p] := by
  simp only [selectCandidates, if_true]
  rw [hp]

theorem selectCandidates_unqualified_consent_missing (servers : List (Str × Server))
    (healthyV : Server → Bool)
    (hp : lookupD servers PERMISSION_SERVER_NAME = none) :
    selectCandidates servers healthyV none consentToolName =
      .error .internalError := by
  simp only [selectCandidates, if_true]
  rw [hp]

/-- C1: a tool-invocation request whose qualified name resolves to the consent tool
with a server name different from the reserved privileged name is answered 403
(`permissionDenied`) with no backend contacted over the network (the empty contact
list, for every transport and health behaviour); and an unqualified request for the
consent tool is resolved against the entry registered under the privileged name
only — whenever candidate selection succeeds, the candidate list is exactly the
privileged backend's entry and no other registered backend. -/
theorem consent_tool_permission_boundary {ρ : Type} (servers : List (Str × Server))
    (healthyV : Server → Bool) (catalog : Server → Option (List Str))
    (call : Server → Option ρ) (name sname : Str)
    (hres : resolveName name = (some sname, consentToolName))
    (hdiff : sname ≠ PERMISSION_SERVER_NAME) :
    callTool servers healthyV catalog call (some name) =
      (.error .permissionDenied, ([] : List Server)) ∧
    (∀ cands, selectCandidates servers healthyV none consentToolName = .ok cands →
      ∃ p, lookupD servers PERMISSION_SERVER_NAME = some p ∧ cands = [p]) := by
  constructor
  · show callToolResolved servers healthyV catalog call
        (resolveName name).1 (resolveName name).2 = _
    rw [hres]
    show (match selectCandidates servers healthyV (some sname) consentToolName with
          | .error e => ((.error e, []) : Except CallError ρ × List Server)
          | .ok targets =>
            match tryServers catalog call consentToolName targets with
            | (some res, contacted) => (.ok res, contacted)
            | (none, contacted) =>
              (.error (.toolNotFound (notFoundMsg consentToolName (some sname))),
               contacted)) = _
    rw [selectCandidates_qualified_consent servers healthyV sname hdiff]
  · intro cands hsel
    cases hlook : lookupD servers PERMISSION_SERVER_NAME with
    | none =>
      rw [selectCandidates_unqualified_consent_missing servers healthyV hlook]
        at hsel
      exact Except.noConfusion hsel
    | some p =>
      rw [selectCandidates_unqualified_consent_found servers healthyV p hlook]
        at hsel
      injection hsel with he
      exact ⟨p, rfl, he.symm⟩

/-- Server records used by the dispatcher witnesses: the privileged entry and a
hostile backend also exposing a tool named like the consent tool. -/
def permServerRec : Server := ⟨PERMISSION_SERVER_NAME, lit "perm", lit "http", 9⟩

def evilServerRec : Server := ⟨lit "Evil", lit "d", lit "http", 1⟩

/-- Witness for C1: with the privileged entry and a backend `"Evil"` registered,
`"Evil.ask_for_permission"` is answered 403 with no network contact, and the
unqualified consent request selects exactly the privileged entry. -/
theorem consent_tool_permission_boundary_witness :
    callTool (ρ := Nat)
        [(PERMISSION_SERVER_NAME, permServerRec), (lit "Evil", evilServerRec)]
        (fun _ => true) (fun _ => none) (fun _ => none)
        (some (lit "Evil.ask_for_permission")) =
      (.error .permissionDenied, ([] : List Server)) ∧
    (∀ cands, selectCandidates
        [(PERMISSION_SERVER_NAME, permServerRec), (lit "Evil", evilServerRec)]
        (fun _ => true) none consentToolName = .ok cands →
      ∃ p, lookupD [(PERMISSION_SERVER_NAME, permServerRec),
          (lit "Evil", evilServerRec)] PERMISSION_SERVER_NAME = some p ∧
        cands = [p]) :=
  consent_tool_permission_boundary
    [(PERMISSION_SERVER_NAME, permServerRec), (lit "Evil", evilServerRec)]
    (fun _ => true) (fun _ => none) (fun _ => none)
    (lit "Evil.ask_for_permission") (lit "Evil") (by decide) (by decide)

/-- Counterexample for C4: with the backend `"Evil"` registered, the qualified name
`"Evil.ask_for_permission"` does NOT yield the single named backend as candidate —
the consent-tool permission check preempts candidate selection and answers 403. -/
theorem candidate_selection_counterexample :
    selectCandidates [(lit "Evil", evilServerRec)] (fun _ => true)
        (some (lit "Evil")) consentToolName = .error .permissionDenied ∧
    (Except.error CallError.permissionDenied :
        Except CallError (List Server)) ≠ .ok [evilServerRec] := by
  constructor
  · exact selectCandidates_qualified_consent [(lit "Evil", evilServerRec)]
      (fun _ => true) (lit "Evil") (by decide)
  · intro h
    exact Except.noConfusion h

/-- C4 as amended: unless the request is preempted by the consent-tool permission
check (a qualified name whose tool part is the consent tool and whose server part is
not the privileged name, answered 403), candidate selection behaves as claimed — for
a qualified name the candidate list is exactly the single named backend when it is
registered, with no health filtering applied (the result does not consult the health
verdicts), and the request fails with the 404 `serverNotFound` when it is not; for an
unqualified name other than the consent tool the candidate list is exactly the
registered backends currently reported healthy, in table order. -/
theorem candidate_selection_amended (servers : List (Str × Server))
    (healthyV : Server → Bool) (sname tname : Str) :
    (¬(tname = consentToolName ∧ sname ≠ PERMISSION_SERVER_NAME) →
      (∀ srv, lookupD servers sname = some srv →
        selectCandidates servers healthyV (some sname) tname = .ok [srv]) ∧
      (lookupD servers sname = none →
        selectCandidates servers healthyV (some sname) tname =
          .error (.serverNotFound sname))) ∧
    (tname ≠ consentToolName →
      selectCandidates servers healthyV none tname =
        .ok ((valuesD servers).filter healthyV)) := by
  constructor
  · intro hng
    constructor
    · intro srv hsrv
      simp only [selectCandidates, if_neg hng]
      rw [hsrv]
    · intro hsrv
      simp only [selectCandidates, if_neg hng]
      rw [hsrv]
  · intro hnc
    simp only [selectCandidates, if_neg hnc]

/-- Witness for C4 (amended): a registered backend is selected as the sole candidate
for its qualified name regardless of health; an unknown name is a 404; and an
unqualified non-consent name selects exactly the health-filtered table. -/
theorem candidate_selection_amended_witness :
    selectCandidates [(lit "Evil", evilServerRec)] (fun _ => false)
        (some (lit "Evil")) (lit "echo") = .ok [evilServerRec] ∧
    selectCandidates [(lit "Evil", evilServerRec)] (fun _ => false)
        (some (lit "Ghost")) (lit "echo") =
      .error (.serverNotFound (lit "Ghost")) ∧
    selectCandidates [(lit "Evil", evilServerRec)] (fun _ => false)
        none (lit "echo") =
      .ok ((valuesD [(lit "Evil", evilServerRec)]).filter (fun _ => false)) :=
  ⟨(candidate_selection_amended [(lit "Evil", evilServerRec)] (fun _ => false)
      (lit "Evil") (lit "echo")).1 (by decide) |>.1 evilServerRec (by decide),
   (candidate_selection_amended [(lit "Evil", evilServerRec)] (fun _ => false)
      (lit "Ghost") (lit "echo")).1 (by decide) |>.2 (by decide),
   (candidate_selection_amended [(lit "Evil", evilServerRec)] (fun _ => false)
      (lit "Evil") (lit "echo")).2 (by decide)⟩

/-- A candidate is skipped by the invocation loop: transport failure on the catalog
fetch, the resolved tool absent from the fetched catalog, or transport failure on
the call itself. -/
def skipsCandidate {ρ : Type} (catalog : Server → Option (List Str))
    (call : Server → Option ρ) (tname : Str) (s : Server) : Prop :=
  catalog s = none ∨
    ∃ tools, catalog s = some tools ∧ (tname ∉ tools ∨ call s = none)

theorem tryServers_skip {ρ : Type} (catalog : Server → Option (List Str))
    (call : Server → Option ρ) (tname : Str) (s : Server) (rest : List Server)
    (h : skipsCandidate catalog call tname s) :
    (tryServers catalog call tname (s :: rest)).1 =
      (tryServers catalog call tname rest).1 := by
  rcases h with hc | ⟨tools, hc, h2⟩
  · simp only [tryServers, hc]
  · rcases h2 with hnot | hcall
    · simp only [tryServers, hc]
      rw [if_neg hnot]
    · by_cases hmem : tname ∈ tools
      · simp only [tryServers, hc, hcall]
        rw [if_pos hmem]
      · simp only [tryServers, hc]
        rw [if_neg hmem]

theorem tryServers_hit {ρ : Type} (catalog : Server → Option (List Str))
    (call : Server → Option ρ) (tname : Str) (s : Server) (rest : List Server)
    (tools : List Str) (r : ρ)
    (hc : catalog s = some tools) (hm : tname ∈ tools) (hr : call s = some r) :
    tryServers catalog call tname (s :: rest) = (some r, [s]) := by
  simp only [tryServers, hc, hr]
  rw [if_pos hm]

theorem tryServers_all_skip {ρ : Type} (catalog : Server → Option (List Str))
    (call : Server → Option ρ) (tname : Str) :
    ∀ targets, (∀ s ∈ targets, skipsCandidate catalog call tname s) →
      (tryServers catalog call tname targets).1 = none := by
  intro targets
  induction targets with
  | nil =>
    intro _
    rfl
  | cons s rest ih =>
    intro h
    rw [tryServers_skip catalog call tname s rest (h s (List.mem_cons_self _ _))]
    exact ih (fun s2 hm => h s2 (List.mem_cons_of_mem _ hm))

theorem tryServers_first_hit {ρ : Type} (catalog : Server → Option (List Str))
    (call : Server → Option ρ) (tname : Str) :
    ∀ pre (s : Server) (post : List Server) (tools : List Str) (r : ρ),
      (∀ s2 ∈ pre, skipsCandidate catalog call tname s2) →
      catalog s = some tools → tname ∈ tools → call s = some r →
      (tryServers catalog call tname (pre ++ s :: post)).1 = some r := by
  intro pre
  induction pre with
  | nil =>
    intro s post tools r _ hc hm hr
    rw [List.nil_append,
      tryServers_hit catalog call tname s post tools r hc hm hr]
  | cons s2 pre2 ih =>
    intro s post tools r hskip hc hm hr
    rw [List.cons_append,
      tryServers_skip catalog call tname s2 _ (hskip s2 (List.mem_cons_self _ _))]
    exact ih s post tools r
      (fun x hx => hskip x (List.mem_cons_of_mem _ hx)) hc hm hr

/-- A backend registered under the EMPTY name (the registration endpoint accepts an
empty `server_name`). -/
def emptyNameServerRec : Server := ⟨[], lit "d", lit "http", 2⟩

/-- Counterexample for C5: with the empty-named backend registered, the request
name `".tool"` carries a qualifying server name (the empty string before the
separator), every candidate fails, yet the terminal 404 message is the bare
`"Tool 'tool' not found"` WITHOUT the `" on server ''"` clause — Python's
`if server_name:` treats the given empty name as no name —, contradicting the
claim that the message includes the qualifying server name exactly when one was
given. -/
theorem invocation_loop_counterexample :
    callTool (ρ := Nat) [([], emptyNameServerRec)] (fun _ => true)
        (fun _ => none) (fun _ => none) (some (lit ".tool")) =
      (.error (.toolNotFound (notFoundBase (lit "tool"))), [emptyNameServerRec]) ∧
    resolveName (lit ".tool") = (some [], lit "tool") ∧
    notFoundBase (lit "tool") ≠ notFoundBase (lit "tool") ++ serverClause [] := by
  refine ⟨rfl, rfl, ?_⟩
  decide

/-- C5 as amended: given any resolved request whose candidate selection succeeded,
the invocation loop visits the candidates in order and returns the result of the
first candidate whose catalog fetch succeeds, contains the resolved tool name, and
whose call completes; candidates failing the catalog fetch, lacking the tool, or
failing the call are skipped with nothing recorded; if every candidate is skipped
the Dispatcher answers 404 with the message of `notFoundMsg`, which carries the
qualifying server name exactly when a NON-EMPTY one was given (a given empty
server name, being falsy in Python, is omitted). -/
theorem invocation_loop_amended {ρ : Type} (servers : List (Str × Server))
    (healthyV : Server → Bool) (catalog : Server → Option (List Str))
    (call : Server → Option ρ) (name : Str) (snameOpt : Option Str) (tname : Str)
    (targets : List Server)
    (hres : resolveName name = (snameOpt, tname))
    (hsel : selectCandidates servers healthyV snameOpt tname = .ok targets) :
    (∀ pre s post tools r, targets = pre ++ s :: post →
      (∀ s2 ∈ pre, skipsCandidate catalog call tname s2) →
      catalog s = some tools → tname ∈ tools → call s = some r →
      (callTool servers healthyV catalog call (some name)).1 = .ok r) ∧
    ((∀ s ∈ targets, skipsCandidate catalog call tname s) →
      (callTool servers healthyV catalog call (some name)).1 =
        .error (.toolNotFound (notFoundMsg tname snameOpt))) ∧
    (∀ t u, u ≠ [] → notFoundMsg t (some u) = notFoundBase t ++ serverClause u) ∧
    (∀ t, notFoundMsg t none = notFoundBase t ∧
      notFoundMsg t (some []) = notFoundBase t) := by
  have hred : callTool servers healthyV catalog call (some name) =
      callToolResolved servers healthyV catalog call snameOpt tname := by
    show callToolResolved servers healthyV catalog call
        (resolveName name).1 (resolveName name).2 = _
    rw [hres]
  refine ⟨?_, ?_, ?_, ?_⟩
  · intro pre s post tools r htar hskip hc hm hr
    have ht1 : (tryServers catalog call tname targets).1 = some r := by
      rw [htar]
      exact tryServers_first_hit catalog call tname pre s post tools r
        hskip hc hm hr
    rcases htry : tryServers catalog call tname targets with ⟨o, cs⟩
    have ho : o = some r := by
      rw [← ht1, htry]
    subst ho
    rw [hred]
    simp only [callToolResolved, hsel, htry]
  · intro hallskip
    have ht1 : (tryServers catalog call tname targets).1 = none :=
      tryServers_all_skip catalog call tname targets hallskip
    rcases htry : tryServers catalog call tname targets with ⟨o, cs⟩
    have ho : o = none := by
      rw [← ht1, htry]
    subst ho
    rw [hred]
    simp only [callToolResolved, hsel, htry]
  · intro t u hu
    simp only [notFoundMsg]
    rw [if_neg hu]
  · intro t
    constructor
    · simp [notFoundMsg]
    · simp [notFoundMsg]

/-- A backend exposing the tool `"echo"`, used by the C5 witness. -/
def echoServerRec : Server := ⟨lit "S", lit "d", lit "http", 4⟩

/-- Witness for C5 (amended): the qualified request `"S.echo"` on a backend whose
catalog holds `"echo"` and whose call completes returns that call's result. -/
theorem invocation_loop_amended_witness :
    (callTool (ρ := Nat) [(lit "S", echoServerRec)] (fun _ => true)
        (fun _ => some [lit "echo"]) (fun _ => some 42)
        (some (lit "S.echo"))).1 = .ok 42 :=
  (invocation_loop_amended [(lit "S", echoServerRec)] (fun _ => true)
      (fun _ => some [lit "echo"]) (fun _ => some 42) (lit "S.echo")
      (some (lit "S")) (lit "echo") [echoServerRec]
      (by decide) rfl).1
    [] echoServerRec [] [lit "echo"] 42 rfl
    (fun s2 hm => absurd hm (List.not_mem_nil s2)) rfl (by decide) rfl

theorem getToolsLoop_contacted (healthyV : Server → Bool)
    (listT : Server → Option (List Str)) :
    ∀ targets, (getToolsLoop healthyV listT targets).2 =
      targets.filter healthyV := by
  intro targets
  induction targets with
  | nil => rfl
  | cons s rest ih =>
    by_cases h : healthyV s = true
    · cases hc : listT s with
      | some tools =>
        simp only [getToolsLoop, h, if_true, hc, List.filter_cons_of_pos h]
        rw [ih]
      | none =>
        simp only [getToolsLoop, h, if_true, hc, List.filter_cons_of_pos h]
        rw [ih]
    · simp only [getToolsLoop]
      rw [if_neg h, ih, List.filter_cons, if_neg h]

/-- Counterexample for C6: one registered backend whose cached prober verdict is
unhealthy; the unscoped tool listing contacts NO backend over the transport, while
the claim demands a transport attempt to every registered backend including the
unhealthy ones. -/
theorem tool_listing_counterexample :
    (getTools [(lit "S", echoServerRec)] (fun _ => false)
        (fun _ => some []) none).2 = [] ∧
    ([] : List Server) ≠ valuesD [(lit "S", echoServerRec)] := by
  constructor
  · rfl
  · intro h
    exact List.noConfusion h

/-- C6 as amended: the unscoped tool listing of the registry server
(`get_tools` in `mcp_registry_server.py`) DOES pre-filter its targets by health —
it attempts a transport call exactly to the registered backends the Health Prober
currently reports healthy, in table order, skipping the unhealthy ones before any
transport call, the same filtering the live-servers listing applies. -/
theorem tool_listing_health_filtered (servers : List (Str × Server))
    (healthyV : Server → Bool) (listT : Server → Option (List Str)) :
    (getTools servers healthyV listT none).2 =
      (valuesD servers).filter healthyV := by
  show (getToolsLoop healthyV listT (valuesD servers)).2 = _
  exact getToolsLoop_contacted healthyV listT (valuesD servers)
